import Mathlib

/-!
Verification development for the libbitcoin `chain::script` / `chain::block`
consensus core (headers `script.hpp` and `block.hpp`).  The repository ships
only the class declarations; every function body except `script::is_enabled`
(inline in `script.hpp`) is absent, so the operational definitions below are
modelled from the specification's description of the wire format, the
validation pipeline and the caching discipline, and are marked as such.

Bytes are modelled as `Nat` values; a byte list is well-formed when every
element is below 256.  Readers are total functions `List Nat → Option (α ×
List Nat)` returning the decoded value and the unconsumed remainder; writers
produce the canonical little-endian byte lists the wire format fixes.
-/

namespace NiuBlock

/-! ### Little-endian fixed-width integers -/

/-- Modelled from the spec: the wire format's little-endian fixed-width
integer fields (the implementation is absent from the repository).  Reads
`k` bytes, each required to be a genuine byte (`< 256`). -/
def readLE : Nat → List Nat → Option (Nat × List Nat)
  | 0, d => some (0, d)
  | _ + 1, [] => none
  | k + 1, b :: d =>
      if b < 256 then
        (readLE k d).map (fun vr => (b + 256 * vr.1, vr.2))
      else
        none

/-- Modelled from the spec: canonical little-endian encoding of a `k`-byte
integer field. -/
def writeLE : Nat → Nat → List Nat
  | 0, _ => []
  | k + 1, n => n % 256 :: writeLE k (n / 256)

/-! ### Variable-length integers (Bitcoin compact size) -/

/-- Modelled from the spec: the wire format's variable-length integer
("a length-prefixed ... sequence of little-endian/variable-length integers"),
written canonically: one byte below `0xfd`, otherwise a marker byte followed
by a 2-, 4- or 8-byte little-endian payload. -/
def writeVarint (n : Nat) : List Nat :=
  if n < 0xfd then [n]
  else if n < 0x10000 then 0xfd :: writeLE 2 n
  else if n < 0x100000000 then 0xfe :: writeLE 4 n
  else 0xff :: writeLE 8 n

/-- Modelled from the spec: decoder for the variable-length integer.  A
payload that could have been written in a shorter form is rejected, so a
decoded value re-encodes to exactly the consumed bytes. -/
def readVarint : List Nat → Option (Nat × List Nat)
  | [] => none
  | b :: d =>
      if b < 0xfd then some (b, d)
      else if b = 0xfd then
        (readLE 2 d).bind (fun vr => if 0xfd ≤ vr.1 then some vr else none)
      else if b = 0xfe then
        (readLE 4 d).bind (fun vr => if 0x10000 ≤ vr.1 then some vr else none)
      else if b = 0xff then
        (readLE 8 d).bind (fun vr => if 0x100000000 ≤ vr.1 then some vr else none)
      else none

/-! ### Raw byte fields -/

/-- Modelled from the spec: reading a fixed number of raw bytes from the
stream; fails when fewer bytes remain. -/
def readBytes (n : Nat) (d : List Nat) : Option (List Nat × List Nat) :=
  if n ≤ d.length then some (d.take n, d.drop n) else none

/-! ### Operations (`machine::operation`) -/

/-- Modelled from the spec: "a single script bytecode unit (opcode + optional
immediate data)"; `machine/operation.hpp` is absent from the repository. -/
structure operation where
  code : Nat
  data : List Nat
deriving DecidableEq, Repr

/-- Modelled from the spec: parsing one operation from raw script bytes.
Opcodes 1–75 push that many following bytes; 76/77/78 carry a 1-, 2- or
4-byte little-endian length; every other opcode carries no data. -/
def parseOp : List Nat → Option (operation × List Nat)
  | [] => none
  | b :: d =>
      if 1 ≤ b ∧ b ≤ 75 then
        (readBytes b d).map (fun p => (⟨b, p.1⟩, p.2))
      else if b = 76 then
        (readLE 1 d).bind (fun p => (readBytes p.1 p.2).map (fun q => (⟨b, q.1⟩, q.2)))
      else if b = 77 then
        (readLE 2 d).bind (fun p => (readBytes p.1 p.2).map (fun q => (⟨b, q.1⟩, q.2)))
      else if b = 78 then
        (readLE 4 d).bind (fun p => (readBytes p.1 p.2).map (fun q => (⟨b, q.1⟩, q.2)))
      else
        some (⟨b, []⟩, d)

/-- Modelled from the spec: "the parse from raw bytes to operations is
deterministic".  Fuel-indexed scan; the fuel `d.length` suffices because
every operation consumes at least one byte. -/
def parseOpsFuel : Nat → List Nat → List operation
  | 0, _ => []
  | _ + 1, [] => []
  | fuel + 1, d =>
      match parseOp d with
      | some (op, rest) => op :: parseOpsFuel fuel rest
      | none => []

/-- Modelled from the spec: the deterministic parse of a raw byte buffer into
the cached operation list. -/
def parseOps (d : List Nat) : List operation :=
  parseOpsFuel d.length d

/-! ### Script (`chain::script`) -/

/-- The `chain::script` state, mirroring the header's data members: the
lazily parsed operation cache `operations_` with its `cached_` flag, the raw
byte buffer `bytes_` and the validity flag `valid_` (the `upgrade_mutex` is
a concurrency guard with no sequential content). -/
structure script where
  operations_ : List operation
  cached_ : Bool
  bytes_ : List Nat
  valid_ : Bool
deriving DecidableEq, Repr

namespace script

/-- Modelled from the spec: `reset` returns the script to its default,
invalid state (deserialization failure leaves the script invalid). -/
def reset : script :=
  ⟨[], false, [], false⟩

/-- Modelled from the spec: reader-level deserialization.  With the size
prefix, a variable-length byte count is read and then exactly that many
payload bytes; without it, the whole remaining stream is the payload. -/
def from_data_reader (pfx : Bool) (d : List Nat) : Option (script × List Nat) :=
  match pfx with
  | true =>
      (readVarint d).bind (fun nv =>
        (readBytes nv.1 nv.2).map (fun bv => (⟨[], false, bv.1, true⟩, bv.2)))
  | false =>
      some (⟨[], false, d, true⟩, [])

/-- Modelled from the spec: `script::from_data(encoded, prefix)` — on success
the script holds the consumed payload and is valid; failure leaves the
reset (invalid) script rather than raising. -/
def from_data (d : List Nat) (pfx : Bool) : script :=
  match from_data_reader pfx d with
  | some (s, _) => s
  | none => reset

/-- Modelled from the spec: `script::to_data(prefix)` — the payload bytes,
preceded by their variable-length count when the prefix flag is set. -/
def to_data (s : script) (pfx : Bool) : List Nat :=
  if pfx then writeVarint s.bytes_.length ++ s.bytes_ else s.bytes_

/-- Mirrors `script::is_valid`: "A script object is valid if the byte count
matches the prefix" — the `valid_` flag set by deserialization. -/
def is_valid (s : script) : Bool :=
  s.valid_

/-- Mirrors the inline body in `script.hpp`:
`return (fork & active_forks) != 0;`. -/
def is_enabled (active_forks : Nat) (fork : Nat) : Bool :=
  Nat.land fork active_forks != 0

/-- Modelled from the spec: the lazily-parsed operations accessor — the
cached list when the cache flag is set, otherwise the deterministic parse of
the raw bytes. -/
def operations (s : script) : List operation :=
  if s.cached_ then s.operations_ else parseOps s.bytes_

/-- Cache coherence: whenever the cache flag is set, the cached operation
list is the parse of the raw bytes (the reader/writer lock protocol of the
spec guarantees exactly this for every reachable script state). -/
def coherent (s : script) : Prop :=
  s.cached_ = true → s.operations_ = parseOps s.bytes_

end script

/-! ### Counted lists of wire objects -/

/-- Modelled from the spec: reading a counted sequence of wire objects
(transactions, inputs, outputs) after its variable-length count. -/
def readList {α : Type} (rd : List Nat → Option (α × List Nat)) :
    Nat → List Nat → Option (List α × List Nat)
  | 0, d => some ([], d)
  | n + 1, d =>
      (rd d).bind (fun xr =>
        (readList rd n xr.2).map (fun lr => (xr.1 :: lr.1, lr.2)))

/-- Serialization of a sequence of wire objects: the concatenation of the
members' serializations. -/
def writeList {α : Type} (wr : α → List Nat) (l : List α) : List Nat :=
  (l.map wr).flatten

/-! ### Transactions (`chain::transaction`, consumed interface) -/

/-- Modelled from the spec: a previous-output reference — 32-byte
transaction hash plus 4-byte output index. -/
structure output_point where
  hash : List Nat
  index : Nat
deriving DecidableEq, Repr

/-- Modelled from the spec: a transaction input — previous output reference,
input script and sequence number. -/
structure input where
  previous_output : output_point
  script : script
  sequence : Nat
deriving DecidableEq, Repr

/-- Modelled from the spec: a transaction output — 8-byte value and output
script. -/
structure output where
  value : Nat
  script : script
deriving DecidableEq, Repr

/-- Modelled from the spec: the transaction as "a signed message container"
— version, inputs, outputs and lock time. -/
structure transaction where
  version : Nat
  inputs : List input
  outputs : List output
  locktime : Nat
deriving DecidableEq, Repr

namespace output_point

/-- Modelled from the spec: wire encoding of a previous-output reference. -/
def to_data (p : output_point) : List Nat :=
  p.hash ++ writeLE 4 p.index

/-- Modelled from the spec: wire decoding of a previous-output reference. -/
def from_data_reader (d : List Nat) : Option (output_point × List Nat) :=
  (readBytes 32 d).bind (fun hv =>
    (readLE 4 hv.2).map (fun iv => (⟨hv.1, iv.1⟩, iv.2)))

/-- A null previous output marks a coinbase input: the all-zero hash and the
maximum 32-bit index. -/
def is_null (p : output_point) : Bool :=
  decide (p.hash = List.replicate 32 0) && decide (p.index = 4294967295)

end output_point

namespace input

/-- Modelled from the spec: wire encoding of an input — previous output,
size-prefixed script, sequence. -/
def to_data (i : input) : List Nat :=
  output_point.to_data i.previous_output ++ script.to_data i.script true ++
    writeLE 4 i.sequence

/-- Modelled from the spec: wire decoding of an input. -/
def from_data_reader (d : List Nat) : Option (input × List Nat) :=
  (output_point.from_data_reader d).bind (fun pv =>
    (script.from_data_reader true pv.2).bind (fun sv =>
      (readLE 4 sv.2).map (fun qv => (⟨pv.1, sv.1, qv.1⟩, qv.2))))

end input

namespace output

/-- Modelled from the spec: wire encoding of an output — 8-byte value and
size-prefixed script. -/
def to_data (o : output) : List Nat :=
  writeLE 8 o.value ++ script.to_data o.script true

/-- Modelled from the spec: wire decoding of an output. -/
def from_data_reader (d : List Nat) : Option (output × List Nat) :=
  (readLE 8 d).bind (fun vv =>
    (script.from_data_reader true vv.2).map (fun sv => (⟨vv.1, sv.1⟩, sv.2)))

end output

namespace transaction

/-- Modelled from the spec: wire encoding of a transaction — version,
counted inputs, counted outputs, lock time. -/
def to_data (t : transaction) : List Nat :=
  writeLE 4 t.version ++
    writeVarint t.inputs.length ++ writeList input.to_data t.inputs ++
    writeVarint t.outputs.length ++ writeList output.to_data t.outputs ++
    writeLE 4 t.locktime

/-- Modelled from the spec: wire decoding of a transaction. -/
def from_data_reader (d : List Nat) : Option (transaction × List Nat) :=
  (readLE 4 d).bind (fun vv =>
    (readVarint vv.2).bind (fun nv =>
      (readList input.from_data_reader nv.1 nv.2).bind (fun iv =>
        (readVarint iv.2).bind (fun mv =>
          (readList output.from_data_reader mv.1 mv.2).bind (fun ov =>
            (readLE 4 ov.2).map (fun lv =>
              (⟨vv.1, iv.1, ov.1, lv.1⟩, lv.2)))))))

end transaction

/-! ### Header (`chain::header`, consumed interface) -/

/-- The all-zero 32-byte hash. -/
def null_hash : List Nat :=
  List.replicate 32 0

/-- Modelled from the spec: the block header — "version, previous-block
hash, merkle root, timestamp, difficulty bits, nonce". -/
structure header where
  version : Nat
  previous_block_hash : List Nat
  merkle : List Nat
  timestamp : Nat
  bits : Nat
  nonce : Nat
deriving DecidableEq, Repr

namespace header

/-- The default-constructed (null) header. -/
def null_header : header :=
  ⟨0, null_hash, null_hash, 0, 0, 0⟩

/-- Modelled from the spec: a header is structurally valid when it differs
from the default-constructed header in at least one field. -/
def is_valid (h : header) : Bool :=
  decide (h.version ≠ 0) || decide (h.timestamp ≠ 0) || decide (h.bits ≠ 0) ||
    decide (h.nonce ≠ 0) || decide (h.previous_block_hash ≠ null_hash) ||
    decide (h.merkle ≠ null_hash)

/-- Modelled from the spec: the fixed 80-byte wire encoding of a header. -/
def to_data (h : header) : List Nat :=
  writeLE 4 h.version ++ h.previous_block_hash ++ h.merkle ++
    writeLE 4 h.timestamp ++ writeLE 4 h.bits ++ writeLE 4 h.nonce

/-- Modelled from the spec: wire decoding of a header. -/
def from_data_reader (d : List Nat) : Option (header × List Nat) :=
  (readLE 4 d).bind (fun vv =>
    (readBytes 32 vv.2).bind (fun pv =>
      (readBytes 32 pv.2).bind (fun mv =>
        (readLE 4 mv.2).bind (fun tv =>
          (readLE 4 tv.2).bind (fun bv =>
            (readLE 4 bv.2).map (fun nv =>
              (⟨vv.1, pv.1, mv.1, tv.1, bv.1, nv.1⟩, nv.2)))))))

end header

/-! ### Block (`chain::block`) -/

/-- The `chain::block` state, mirroring the header's data members: the
block header `header_`, the transaction list `transactions_` and the two
lazily computed input-count caches (`optional_size total_inputs_` /
`non_coinbase_inputs_`); the `upgrade_mutex` and the validation side-record
carry no sequential content relevant to the claims. -/
structure block where
  header_ : header
  transactions_ : List transaction
  total_inputs_ : Option Nat
  non_coinbase_inputs_ : Option Nat
deriving DecidableEq, Repr

namespace block

/-- The default-constructed block: null header, no transactions, empty
caches. -/
def default_block : block :=
  ⟨header.null_header, [], none, none⟩

/-- Accessor mirroring `block::header()`. -/
def hdr (b : block) : header :=
  b.header_

/-- Accessor mirroring `block::transactions()`. -/
def transactions (b : block) : List transaction :=
  b.transactions_

/-- Modelled from the spec: `is_valid()` holds iff the header is
structurally valid and the transaction list is non-empty. -/
def is_valid (b : block) : Bool :=
  b.header_.is_valid && !b.transactions_.isEmpty

/-- Modelled from the spec: wire encoding of a block — the 80-byte header
followed by the counted transaction list. -/
def to_data (b : block) : List Nat :=
  header.to_data b.header_ ++ writeVarint b.transactions_.length ++
    writeList transaction.to_data b.transactions_

/-- Modelled from the spec: wire decoding of a block; a freshly
deserialized block has empty caches. -/
def from_data_reader (d : List Nat) : Option (block × List Nat) :=
  (header.from_data_reader d).bind (fun hv =>
    (readVarint hv.2).bind (fun nv =>
      (readList transaction.from_data_reader nv.1 nv.2).map (fun tv =>
        (⟨hv.1, tv.1, none, none⟩, tv.2))))

/-- Modelled from the spec: `block::from_data` — on failure the block is
reset to the default (invalid) state rather than raising. -/
def from_data (d : List Nat) : block :=
  match from_data_reader d with
  | some (b, _) => b
  | none => default_block

end block

/-! ### Error codes and transaction predicates -/

/-- Modelled from the spec: the closed result-code taxonomy of the check
stage ("All failures are represented as result codes from a closed
taxonomy (not raised exceptions)"). -/
inductive code
  | success
  | invalid_header
  | empty_block
  | block_size_limit
  | extra_coinbases
  | invalid_transaction
  | merkle_mismatch
  | internal_duplicate
  | block_internal_double_spend
deriving DecidableEq, Repr

/-- Modelled from the spec: a coinbase transaction — the single input
spends the null previous output. -/
def transaction.is_coinbase (t : transaction) : Bool :=
  match t.inputs with
  | [i] => output_point.is_null i.previous_output
  | _ => false

/-- Modelled from the spec: the consensus money bound used by
per-transaction well-formedness. -/
def max_money : Nat :=
  2100000000000000

/-- Modelled from the spec: "every transaction individually well-formed" —
non-empty inputs, non-empty outputs, total output value within the money
range. -/
def transaction.well_formed (t : transaction) : Bool :=
  !t.inputs.isEmpty && !t.outputs.isEmpty &&
    decide ((t.outputs.map output.value).sum ≤ max_money)

/-! ### Hashing and the merkle root -/

/-- Modelled from the spec: stand-in for the external double-SHA-256
primitive producing a 32-byte digest ("the merkle root and block hash are
hashes of this exact serialization"); the claims checked here depend only on
it being a deterministic function of the input bytes. -/
def hash256Model (d : List Nat) : List Nat :=
  writeLE 32 (d.foldl (fun acc b => (acc * 257 + b + 1) % 2 ^ 256) 1)

/-- Modelled from the spec: the transaction hash — the digest of the
transaction's exact serialization. -/
def transaction.hash (t : transaction) : List Nat :=
  hash256Model (transaction.to_data t)

/-- Modelled from the spec: one merkle combination round — pad an odd list
with its last element, then hash adjacent pairs. -/
def merkleStep : List (List Nat) → List (List Nat)
  | [] => []
  | [x] => [hash256Model (x ++ x)]
  | x :: y :: rest => hash256Model (x ++ y) :: merkleStep rest

/-- Modelled from the spec: iterated merkle rounds; the fuel bounds the
number of rounds and `l.length` rounds always suffice. -/
def merkleRounds : Nat → List (List Nat) → List (List Nat)
  | 0, l => l
  | fuel + 1, l =>
      if l.length ≤ 1 then l else merkleRounds fuel (merkleStep l)

/-- Modelled from the spec: "a single hash summarizing an ordered
transaction set". -/
def block.generate_merkle_root (b : block) : List Nat :=
  let hashes := b.transactions_.map transaction.hash
  match merkleRounds hashes.length hashes with
  | [h] => h
  | _ => null_hash

/-! ### Structural block predicates and `check` -/

namespace block

/-- Modelled from the spec: the consensus block-size limit used by the
check stage. -/
def max_block_size : Nat :=
  1000000

/-- Modelled from the spec: a block's serialized size — in bytes of its
exact wire encoding. -/
def serialized_size (b : block) : Nat :=
  (to_data b).length

/-- Mirrors `block::is_extra_coinbases`: "at most one coinbase" must hold,
so the predicate fires when two or more transactions are coinbases. -/
def is_extra_coinbases (b : block) : Bool :=
  decide (1 < b.transactions_.countP (fun t => transaction.is_coinbase t))

/-- Mirrors `block::is_distinct_transaction_set`: "no duplicate
transactions in the set". -/
def is_distinct_transaction_set (b : block) : Bool :=
  decide b.transactions_.Nodup

/-- Mirrors `block::is_internal_double_spend`: no two inputs of the
block's own non-coinbase transactions spend the same previous output. -/
def is_internal_double_spend (b : block) : Bool :=
  !decide ((b.transactions_.filter
    (fun t => !transaction.is_coinbase t)).flatMap
      (fun t => t.inputs.map input.previous_output)).Nodup

/-- Mirrors `block::is_valid_merkle_root`: the computed merkle root equals
the header's declared root. -/
def is_valid_merkle_root (b : block) : Bool :=
  decide (generate_merkle_root b = b.header_.merkle)

/-- Modelled from the spec: `block::check()` — "structural, context-free:
header sanity, non-empty transaction list, size within consensus limits, at
most one coinbase, every transaction individually well-formed, merkle root
matches the header's declared root, no duplicate transactions in the set,
no internal double-spend", short-circuiting at the first failure. -/
def check (b : block) : code :=
  if !header.is_valid b.header_ then .invalid_header
  else if b.transactions_.isEmpty then .empty_block
  else if max_block_size < serialized_size b then .block_size_limit
  else if is_extra_coinbases b then .extra_coinbases
  else if !(b.transactions_.all transaction.well_formed) then
    .invalid_transaction
  else if !is_valid_merkle_root b then .merkle_mismatch
  else if !is_distinct_transaction_set b then .internal_duplicate
  else if is_internal_double_spend b then .block_internal_double_spend
  else .success

/-! ### Pure utilities: subsidy and locator -/

/-- Modelled from the spec: the genesis-era base reward constant, in
satoshis. -/
def initial_block_subsidy_satoshi : Nat :=
  5000000000

/-- Modelled from the spec: the halving interval of the deterministic
subsidy schedule, in blocks. -/
def subsidy_interval : Nat :=
  210000

/-- Modelled from the spec: `subsidy(height)` — "deterministic halving
schedule": the base reward halved (with integer truncation) once per
completed interval. -/
def subsidy (height : Nat) : Nat :=
  initial_block_subsidy_satoshi >>> (height / subsidy_interval)

/-- Modelled from the spec: the descent of the locator sequence — push the
current height, back off by a gap that doubles each step, and clamp the
final step to the genesis height 0.  The fuel bounds the iteration count;
`height` iterations always suffice because every gap is at least one. -/
def locator_aux : Nat → Nat → Nat → List Nat
  | 0, _, _ => [0]
  | fuel + 1, height, step =>
      if height = 0 then [0]
      else height :: locator_aux fuel (height - step) (2 * step)

/-- Modelled from the spec: `locator_heights(top)` — "the
exponentially-sparse height sequence used to request blocks from peers — a
pure function of an integer, no I/O", "a strictly decreasing sequence
starting at `top` with increasing gaps (1,2,4,8,...) terminating at height
0". -/
def locator_heights (top : Nat) : List Nat :=
  locator_aux (top + 1) top 1

/-- Modelled from the spec: `locator_size(top)` — the number of heights the
locator for a top height contains, in closed form: the `top` entry, one
entry per doubling gap, and the final genesis entry. -/
def locator_size (top : Nat) : Nat :=
  if top = 0 then 1 else Nat.log2 top + 2

/-! ### Lazily cached input counts -/

/-- Modelled from the spec: the underlying computation behind
`total_inputs()` — the number of inputs over all transactions. -/
def compute_total_inputs (b : block) : Nat :=
  (b.transactions_.map (fun t => t.inputs.length)).sum

/-- Modelled from the spec: one instrumented call to `total_inputs()`:
returns the value, whether the underlying computation ran (the
"instrumented counter" of the spec's test), and the block state after the
call — the first caller to find the cache empty computes once and fills
it. -/
def total_inputs_call (b : block) : Nat × Bool × block :=
  match b.total_inputs_ with
  | some v => (v, false, b)
  | none =>
      let v := compute_total_inputs b
      (v, true, { b with total_inputs_ := some v })

/-- N successive instrumented calls to `total_inputs()` on the same block:
the returned values, the number of underlying computations triggered, and
the final state. -/
def total_inputs_calls : Nat → block → List Nat × Nat × block
  | 0, b => ([], 0, b)
  | n + 1, b =>
      let (v, computed, b') := total_inputs_call b
      let (vs, c, b'') := total_inputs_calls n b'
      (v :: vs, (if computed then 1 else 0) + c, b'')

/-- Modelled from the spec: `reset()` — "invalidated by `reset()` (called
on deserialization failure or explicit mutation)"; both caches are
emptied. -/
def reset (b : block) : block :=
  { b with total_inputs_ := none, non_coinbase_inputs_ := none }

/-- Mirrors `block::set_header`: replaces the header; the input-count
caches do not depend on the header and are untouched ("never invalidated by
any other mutation path"). -/
def set_header (b : block) (h : header) : block :=
  { b with header_ := h }

end block

/-! ### Pattern classification (`machine::script_pattern`) -/

/-- Modelled from the spec: the closed variant set of the pattern taxonomy
("{null-data, pay-to-public-key, pay-to-public-key-hash, pay-to-script-hash,
pay-to-multisig, sign-public-key, sign-key-hash, sign-script-hash,
sign-multisig, non-standard}"). -/
inductive script_pattern
  | null_data
  | pay_multisig
  | pay_public_key
  | pay_key_hash
  | pay_script_hash
  | sign_multisig
  | sign_public_key
  | sign_key_hash
  | sign_script_hash
  | non_standard
deriving DecidableEq, Repr

/-- A data-push operation: opcode 0 (empty push) through 78 (pushdata4). -/
def operation.is_push (op : operation) : Bool :=
  decide (op.code ≤ 78)

/-- A small-integer opcode (op_1 … op_16). -/
def is_small_int (c : Nat) : Bool :=
  decide (81 ≤ c) && decide (c ≤ 96)

/-- Modelled from the spec: the null-data output template — op_return
followed by one push of at most 80 bytes. -/
def script.is_null_data_pattern (ops : List operation) : Bool :=
  match ops with
  | [a, b] =>
      decide (a.code = 106) && operation.is_push b && decide (b.data.length ≤ 80)
  | _ => false

/-- Modelled from the spec: the bare-multisig output template — a
small-integer signature count, public-key pushes, a small-integer key count
and op_checkmultisig. -/
def script.is_pay_multisig_pattern (ops : List operation) : Bool :=
  match ops with
  | op_m :: tl =>
      match tl.dropLast.getLast?, tl.getLast? with
      | some op_n, some op_last =>
          decide (1 ≤ tl.dropLast.dropLast.length) &&
            is_small_int op_m.code && is_small_int op_n.code &&
            decide (op_last.code = 174) &&
            tl.dropLast.dropLast.all (fun k =>
              decide (k.data.length = 33) || decide (k.data.length = 65)) &&
            decide (op_m.code ≤ op_n.code)
      | _, _ => false
  | [] => false

/-- Modelled from the spec: the pay-to-public-key output template — one
33- or 65-byte key push and op_checksig. -/
def script.is_pay_public_key_pattern (ops : List operation) : Bool :=
  match ops with
  | [k, c] =>
      (decide (k.data.length = 33) || decide (k.data.length = 65)) &&
        decide (k.code = k.data.length) && decide (c.code = 172)
  | _ => false

/-- Modelled from the spec: the pay-to-public-key-hash output template —
op_dup, op_hash160, a 20-byte push, op_equalverify, op_checksig. -/
def script.is_pay_key_hash_pattern (ops : List operation) : Bool :=
  match ops with
  | [a, b, c, d, e] =>
      decide (a.code = 118) && decide (b.code = 169) && decide (c.code = 20) &&
        decide (c.data.length = 20) && decide (d.code = 136) &&
        decide (e.code = 172)
  | _ => false

/-- Modelled from the spec: the pay-to-script-hash output template —
op_hash160, a 20-byte push, op_equal. -/
def script.is_pay_script_hash_pattern (ops : List operation) : Bool :=
  match ops with
  | [a, b, c] =>
      decide (a.code = 169) && decide (b.code = 20) &&
        decide (b.data.length = 20) && decide (c.code = 135)
  | _ => false

/-- Modelled from the spec: the sign-multisig input template — the op_zero
placeholder followed by endorsement pushes. -/
def script.is_sign_multisig_pattern (ops : List operation) : Bool :=
  match ops with
  | z :: rest =>
      decide (z.code = 0) && decide (1 ≤ rest.length) &&
        rest.all operation.is_push
  | [] => false

/-- Modelled from the spec: the sign-public-key input template — a single
endorsement push. -/
def script.is_sign_public_key_pattern (ops : List operation) : Bool :=
  match ops with
  | [e] => operation.is_push e && decide (1 ≤ e.data.length)
  | _ => false

/-- Modelled from the spec: the sign-key-hash input template — an
endorsement push followed by a 33- or 65-byte public-key push. -/
def script.is_sign_key_hash_pattern (ops : List operation) : Bool :=
  match ops with
  | [e, k] =>
      operation.is_push e && decide (1 ≤ e.data.length) &&
        (decide (k.data.length = 33) || decide (k.data.length = 65))
  | _ => false

/-- Modelled from the spec: the sign-script-hash input template — pushes
ending in the non-empty embedded script push. -/
def script.is_sign_script_hash_pattern (ops : List operation) : Bool :=
  decide (2 ≤ ops.length) && ops.all operation.is_push &&
    (match ops.getLast? with
     | some e => decide (1 ≤ e.data.length)
     | none => false)

/-- Modelled from the spec: `output_pattern()` — classification of an
operation sequence against the output templates, purely structural. -/
def script.output_pattern_of (ops : List operation) : script_pattern :=
  if script.is_null_data_pattern ops then .null_data
  else if script.is_pay_multisig_pattern ops then .pay_multisig
  else if script.is_pay_public_key_pattern ops then .pay_public_key
  else if script.is_pay_key_hash_pattern ops then .pay_key_hash
  else if script.is_pay_script_hash_pattern ops then .pay_script_hash
  else .non_standard

/-- Modelled from the spec: `input_pattern()` — classification of an
operation sequence against the input templates, purely structural. -/
def script.input_pattern_of (ops : List operation) : script_pattern :=
  if script.is_sign_key_hash_pattern ops then .sign_key_hash
  else if script.is_sign_script_hash_pattern ops then .sign_script_hash
  else if script.is_sign_public_key_pattern ops then .sign_public_key
  else if script.is_sign_multisig_pattern ops then .sign_multisig
  else .non_standard

/-- Modelled from the spec: `pattern()` — the output classification when
standard, otherwise the input classification. -/
def script.pattern (s : script) : script_pattern :=
  let op := script.output_pattern_of (script.operations s)
  if op = .non_standard then script.input_pattern_of (script.operations s)
  else op

/-! ### Sigop counting -/

/-- Modelled from the spec: the worst-case operand count charged to a bare
multisig whose count opcode is unspecified — "treats an unspecified/absent
operand count as a worst-case maximum to prevent undercounting". -/
def multisig_default_sigops : Nat :=
  20

/-- Modelled from the spec: the sigop scan — op_checksig(verify) counts one;
op_checkmultisig(verify) counts the preceding small-integer operand when
embedded counting is requested and that operand is recognized, and the
worst-case maximum otherwise.  `last` is the previous opcode. -/
def sigops_count (embedded : Bool) : List operation → Nat → Nat
  | [], _ => 0
  | op :: rest, last =>
      (if op.code = 172 || op.code = 173 then 1
       else if op.code = 174 || op.code = 175 then
         (if embedded && is_small_int last then last - 80
          else multisig_default_sigops)
       else 0) + sigops_count embedded rest op.code

/-- Modelled from the spec: `script::sigops(embedded)` — "counts
signature-check opcodes" over the parsed operations; 79 (push_negative_1)
is the initial previous-opcode sentinel. -/
def script.sigops (s : script) (embedded : Bool) : Nat :=
  sigops_count embedded (script.operations s) 79

/-! ### Signature-hash generation -/

/-- Modelled from the spec: the per-mode input substitution of signature
hashing — the signing input receives the script code, every other input's
script is nulled and its sequence zeroed in the none/single modes.  `j` is
the position of the head of `l` in the original input list. -/
def sighash_inputs (script_code : script) (base idx : Nat) :
    Nat → List input → List input
  | _, [] => []
  | j, i :: rest =>
      (if j = idx then { i with script := script_code }
       else
         { i with script := script.reset,
                  sequence := if base = 2 || base = 3 then 0 else i.sequence })
        :: sighash_inputs script_code base idx (j + 1) rest

/-- Modelled from the spec: the per-mode output substitution of signature
hashing — all outputs for the all mode, none for the none mode, and for the
single mode the matching output preceded by nulled placeholders. -/
def sighash_outputs (base idx : Nat) (outs : List output) : List output :=
  if base = 2 then []
  else if base = 3 then
    (outs.take idx).map (fun _ => ⟨18446744073709551615, script.reset⟩) ++
      (match outs[idx]? with
       | some o => [o]
       | none => [])
  else outs

/-- Modelled from the spec: `generate_signature_hash(tx, input_index,
script_code, sighash_type)` — "construction serializes a modified copy of
the transaction (not the live one) with inputs/outputs nulled or dropped
per mode, then double-hashes the result"; an out-of-range input index
yields the sentinel digest. -/
def script.generate_signature_hash (tx : transaction) (input_index : Nat)
    (script_code : script) (sighash_type : Nat) : List Nat :=
  match tx.inputs[input_index]? with
  | none => List.replicate 31 0 ++ [1]
  | some self =>
      let base := sighash_type % 32
      let anyone := decide (128 ≤ sighash_type % 256)
      let ins :=
        if anyone then [{ self with script := script_code }]
        else sighash_inputs script_code base input_index 0 tx.inputs
      let outs := sighash_outputs base input_index tx.outputs
      hash256Model
        (transaction.to_data ⟨tx.version, ins, outs, tx.locktime⟩ ++
          writeLE 4 sighash_type)

/-! ### Concrete witness data -/

/-- A concrete two-byte script payload parsed without a cache. -/
def scriptW : script :=
  ⟨[], false, [171, 205], true⟩

/-- A concrete one-opcode script with the cache unpopulated. -/
def s1W : script :=
  ⟨[], false, [81], true⟩

/-- The same script with the operations cache populated coherently. -/
def s2W : script :=
  ⟨parseOps [81], true, [81], true⟩

/-- A concrete coinbase-shaped, individually well-formed transaction. -/
def coinbaseW : transaction :=
  ⟨1, [⟨⟨null_hash, 4294967295⟩, ⟨[], false, [81], true⟩, 4294967295⟩],
    [⟨5000000000, ⟨[], false, [81], true⟩⟩], 0⟩

/-- A concrete structurally valid header. -/
def headerW : header :=
  ⟨1, null_hash, null_hash, 0, 0, 0⟩

/-- A concrete single-transaction block. -/
def blockW : block :=
  ⟨headerW, [coinbaseW], none, none⟩

/-- The exact wire bytes of the concrete block. -/
def blockBytesW : List Nat :=
  block.to_data blockW

/-- A concrete block holding two identical coinbase-like transactions. -/
def blockCW : block :=
  ⟨headerW, [coinbaseW, coinbaseW], none, none⟩

/-! ## Theorems: serialization round trips -/

theorem readLE_lt : ∀ (k : Nat) (d : List Nat) (v : Nat) (r : List Nat),
    readLE k d = some (v, r) → v < 256 ^ k := by
  intro k
  induction k with
  | zero =>
      intro d v r h
      simp [readLE] at h
      omega
  | succ k ih =>
      intro d v r h
      match d with
      | [] => simp [readLE] at h
      | b :: d' =>
          simp only [readLE] at h
          by_cases hb : b < 256
          · simp only [if_pos hb, Option.map_eq_some', Prod.mk.injEq] at h
            obtain ⟨⟨v', r'⟩, hrec, hv, hr⟩ := h
            have hv' := ih d' v' r' hrec
            have hp : 256 ^ (k + 1) = 256 * 256 ^ k := by ring
            omega
          · simp [if_neg hb] at h

theorem readLE_writeLE : ∀ (k : Nat) (d : List Nat) (v : Nat) (r : List Nat),
    readLE k d = some (v, r) → writeLE k v ++ r = d := by
  intro k
  induction k with
  | zero =>
      intro d v r h
      simp [readLE] at h
      simp [writeLE, h]
  | succ k ih =>
      intro d v r h
      match d with
      | [] => simp [readLE] at h
      | b :: d' =>
          simp only [readLE] at h
          by_cases hb : b < 256
          · simp only [if_pos hb, Option.map_eq_some', Prod.mk.injEq] at h
            obtain ⟨⟨v', r'⟩, hrec, hv, hr⟩ := h
            rw [← hv, ← hr]
            have hmod : (b + 256 * v') % 256 = b := by omega
            have hdiv : (b + 256 * v') / 256 = v' := by omega
            have hihd := ih d' v' r' hrec
            simp [writeLE, hmod, hdiv, hihd]
          · simp [if_neg hb] at h

theorem writeLE_length (k n : Nat) : (writeLE k n).length = k := by
  induction k generalizing n with
  | zero => simp [writeLE]
  | succ k ih => simp [writeLE, ih]

theorem readVarint_writeVarint (d : List Nat) (v : Nat) (r : List Nat)
    (h : readVarint d = some (v, r)) : writeVarint v ++ r = d := by
  match d with
  | [] => simp [readVarint] at h
  | b :: d' =>
      simp only [readVarint] at h
      by_cases h1 : b < 0xfd
      · simp only [if_pos h1, Option.some.injEq, Prod.mk.injEq] at h
        obtain ⟨hv, hr⟩ := h
        rw [← hv, ← hr]
        simp [writeVarint, if_pos h1]
      · simp only [if_neg h1] at h
        by_cases h2 : b = 0xfd
        · simp only [if_pos h2, Option.bind_eq_some] at h
          obtain ⟨⟨v', r'⟩, hrec, hcond⟩ := h
          by_cases hge : 0xfd ≤ v'
          · simp only [if_pos hge, Option.some.injEq, Prod.mk.injEq] at hcond
            obtain ⟨hv, hr⟩ := hcond
            rw [← hv, ← hr]
            have hlt := readLE_lt 2 d' v' r' hrec
            have hw := readLE_writeLE 2 d' v' r' hrec
            have hwv : writeVarint v' = 0xfd :: writeLE 2 v' := by
              simp only [writeVarint]
              rw [if_neg (by omega), if_pos (by norm_num at hlt ⊢; omega)]
            rw [hwv, h2, List.cons_append, hw]
          · simp [if_neg hge] at hcond
        · simp only [if_neg h2] at h
          by_cases h3 : b = 0xfe
          · simp only [if_pos h3, Option.bind_eq_some] at h
            obtain ⟨⟨v', r'⟩, hrec, hcond⟩ := h
            by_cases hge : 0x10000 ≤ v'
            · simp only [if_pos hge, Option.some.injEq, Prod.mk.injEq] at hcond
              obtain ⟨hv, hr⟩ := hcond
              rw [← hv, ← hr]
              have hlt := readLE_lt 4 d' v' r' hrec
              have hw := readLE_writeLE 4 d' v' r' hrec
              have hwv : writeVarint v' = 0xfe :: writeLE 4 v' := by
                simp only [writeVarint]
                rw [if_neg (by omega), if_neg (by omega),
                  if_pos (by norm_num at hlt ⊢; omega)]
              rw [hwv, h3, List.cons_append, hw]
            · simp [if_neg hge] at hcond
          · simp only [if_neg h3] at h
            by_cases h4 : b = 0xff
            · simp only [if_pos h4, Option.bind_eq_some] at h
              obtain ⟨⟨v', r'⟩, hrec, hcond⟩ := h
              by_cases hge : 0x100000000 ≤ v'
              · simp only [if_pos hge, Option.some.injEq, Prod.mk.injEq] at hcond
                obtain ⟨hv, hr⟩ := hcond
                rw [← hv, ← hr]
                have hw := readLE_writeLE 8 d' v' r' hrec
                have hwv : writeVarint v' = 0xff :: writeLE 8 v' := by
                  simp only [writeVarint]
                  rw [if_neg (by omega), if_neg (by omega), if_neg (by omega)]
                rw [hwv, h4, List.cons_append, hw]
              · simp [if_neg hge] at hcond
            · simp [if_neg h4] at h

theorem readBytes_append (n : Nat) (d bs r : List Nat)
    (h : readBytes n d = some (bs, r)) : bs ++ r = d := by
  simp only [readBytes] at h
  by_cases hn : n ≤ d.length
  · simp only [if_pos hn, Option.some.injEq, Prod.mk.injEq] at h
    rw [← h.1, ← h.2]
    exact List.take_append_drop n d
  · simp [if_neg hn] at h

theorem readBytes_length (n : Nat) (d bs r : List Nat)
    (h : readBytes n d = some (bs, r)) : bs.length = n := by
  simp only [readBytes] at h
  by_cases hn : n ≤ d.length
  · simp only [if_pos hn, Option.some.injEq, Prod.mk.injEq] at h
    rw [← h.1]
    simp [List.length_take]
    omega
  · simp [if_neg hn] at h

theorem script_round_trip_reader (pfx : Bool) (d : List Nat) (s : script)
    (r : List Nat) (h : script.from_data_reader pfx d = some (s, r)) :
    script.to_data s pfx ++ r = d := by
  cases pfx with
  | false =>
      simp only [script.from_data_reader, Option.some.injEq, Prod.mk.injEq] at h
      rw [← h.1, ← h.2]
      simp [script.to_data]
  | true =>
      simp only [script.from_data_reader, Option.bind_eq_some,
        Option.map_eq_some', Prod.mk.injEq] at h
      obtain ⟨⟨n, d1⟩, hvar, ⟨bs, r1⟩, hbytes, hs, hr⟩ := h
      rw [← hs, ← hr]
      have hlen := readBytes_length n d1 bs r1 hbytes
      have happ := readBytes_append n d1 bs r1 hbytes
      have hv := readVarint_writeVarint d n d1 hvar
      simp only [script.to_data, hlen, if_true, List.append_assoc, happ, hv]

theorem readList_length {α : Type} (rd : List Nat → Option (α × List Nat)) :
    ∀ (n : Nat) (d : List Nat) (l : List α) (r : List Nat),
      readList rd n d = some (l, r) → l.length = n := by
  intro n
  induction n with
  | zero =>
      intro d l r h
      simp only [readList, Option.some.injEq, Prod.mk.injEq] at h
      rw [← h.1]
      rfl
  | succ n ih =>
      intro d l r h
      simp only [readList, Option.bind_eq_some, Option.map_eq_some',
        Prod.mk.injEq] at h
      obtain ⟨⟨x, d1⟩, hx, ⟨l1, r1⟩, hrest, hl, hr⟩ := h
      rw [← hl]
      simp [ih d1 l1 r1 hrest]

theorem readList_writeList {α : Type} (rd : List Nat → Option (α × List Nat))
    (wr : α → List Nat)
    (hrt : ∀ (d : List Nat) (x : α) (r : List Nat),
      rd d = some (x, r) → wr x ++ r = d) :
    ∀ (n : Nat) (d : List Nat) (l : List α) (r : List Nat),
      readList rd n d = some (l, r) → writeList wr l ++ r = d := by
  intro n
  induction n with
  | zero =>
      intro d l r h
      simp only [readList, Option.some.injEq, Prod.mk.injEq] at h
      rw [← h.1, ← h.2]
      rfl
  | succ n ih =>
      intro d l r h
      simp only [readList, Option.bind_eq_some, Option.map_eq_some',
        Prod.mk.injEq] at h
      obtain ⟨⟨x, d1⟩, hx, ⟨l1, r1⟩, hrest, hl, hr⟩ := h
      rw [← hl, ← hr]
      have h1 := hrt d x d1 hx
      have h2 := ih d1 l1 r1 hrest
      simp only [writeList, List.map_cons, List.flatten, List.append_assoc]
      rw [show (l1.map wr).flatten = writeList wr l1 from rfl, h2, h1]

theorem output_point_round_trip_reader (d : List Nat) (p : output_point)
    (r : List Nat) (h : output_point.from_data_reader d = some (p, r)) :
    output_point.to_data p ++ r = d := by
  simp only [output_point.from_data_reader, Option.bind_eq_some,
    Option.map_eq_some', Prod.mk.injEq] at h
  obtain ⟨⟨hs, d1⟩, hh, ⟨i, r1⟩, hi, hp, hr⟩ := h
  rw [← hp, ← hr]
  have h1 := readBytes_append 32 d hs d1 hh
  have h2 := readLE_writeLE 4 d1 i r1 hi
  simp only [output_point.to_data, List.append_assoc, h2, h1]

theorem input_round_trip_reader (d : List Nat) (i : input) (r : List Nat)
    (h : input.from_data_reader d = some (i, r)) : input.to_data i ++ r = d := by
  simp only [input.from_data_reader, Option.bind_eq_some, Option.map_eq_some',
    Prod.mk.injEq] at h
  obtain ⟨⟨p, d1⟩, hp, ⟨s, d2⟩, hs, ⟨q, r1⟩, hq, hi, hr⟩ := h
  rw [← hi, ← hr]
  have h1 := output_point_round_trip_reader d p d1 hp
  have h2 := script_round_trip_reader true d1 s d2 hs
  have h3 := readLE_writeLE 4 d2 q r1 hq
  simp only [input.to_data, List.append_assoc, h3, h2, h1]

theorem output_round_trip_reader (d : List Nat) (o : output) (r : List Nat)
    (h : output.from_data_reader d = some (o, r)) :
    output.to_data o ++ r = d := by
  simp only [output.from_data_reader, Option.bind_eq_some, Option.map_eq_some',
    Prod.mk.injEq] at h
  obtain ⟨⟨v, d1⟩, hv, ⟨s, r1⟩, hs, ho, hr⟩ := h
  rw [← ho, ← hr]
  have h1 := readLE_writeLE 8 d v d1 hv
  have h2 := script_round_trip_reader true d1 s r1 hs
  simp only [output.to_data, List.append_assoc, h2, h1]

theorem transaction_round_trip_reader (d : List Nat) (t : transaction)
    (r : List Nat) (h : transaction.from_data_reader d = some (t, r)) :
    transaction.to_data t ++ r = d := by
  simp only [transaction.from_data_reader, Option.bind_eq_some,
    Option.map_eq_some', Prod.mk.injEq] at h
  obtain ⟨⟨v, d1⟩, hv, ⟨n, d2⟩, hn, ⟨ins, d3⟩, hins, ⟨m, d4⟩, hm,
    ⟨outs, d5⟩, houts, ⟨lt, r1⟩, hlt, ht, hr⟩ := h
  rw [← ht, ← hr]
  have h1 := readLE_writeLE 4 d v d1 hv
  have h2 := readVarint_writeVarint d1 n d2 hn
  have h3 := readList_writeList input.from_data_reader input.to_data
    input_round_trip_reader n d2 ins d3 hins
  have h3l := readList_length input.from_data_reader n d2 ins d3 hins
  have h4 := readVarint_writeVarint d3 m d4 hm
  have h5 := readList_writeList output.from_data_reader output.to_data
    output_round_trip_reader m d4 outs d5 houts
  have h5l := readList_length output.from_data_reader m d4 outs d5 houts
  have h6 := readLE_writeLE 4 d5 lt r1 hlt
  simp only [transaction.to_data, h3l, h5l, List.append_assoc, h6, h5, h4, h3,
    h2, h1]

theorem header_round_trip_reader (d : List Nat) (h : header) (r : List Nat)
    (hrd : header.from_data_reader d = some (h, r)) :
    header.to_data h ++ r = d := by
  simp only [header.from_data_reader, Option.bind_eq_some, Option.map_eq_some',
    Prod.mk.injEq] at hrd
  obtain ⟨⟨v, d1⟩, hv, ⟨p, d2⟩, hp, ⟨m, d3⟩, hm, ⟨t, d4⟩, ht, ⟨b, d5⟩, hb,
    ⟨nn, r1⟩, hn, hh, hr⟩ := hrd
  rw [← hh, ← hr]
  have h1 := readLE_writeLE 4 d v d1 hv
  have h2 := readBytes_append 32 d1 p d2 hp
  have h3 := readBytes_append 32 d2 m d3 hm
  have h4 := readLE_writeLE 4 d3 t d4 ht
  have h5 := readLE_writeLE 4 d4 b d5 hb
  have h6 := readLE_writeLE 4 d5 nn r1 hn
  simp only [header.to_data, List.append_assoc, h6, h5, h4, h3, h2, h1]

theorem block_round_trip_reader (d : List Nat) (b : block) (r : List Nat)
    (h : block.from_data_reader d = some (b, r)) :
    block.to_data b ++ r = d := by
  simp only [block.from_data_reader, Option.bind_eq_some, Option.map_eq_some',
    Prod.mk.injEq] at h
  obtain ⟨⟨hd, d1⟩, hh, ⟨n, d2⟩, hn, ⟨txs, r1⟩, htxs, hb, hr⟩ := h
  rw [← hb, ← hr]
  have h1 := header_round_trip_reader d hd d1 hh
  have h2 := readVarint_writeVarint d1 n d2 hn
  have h3 := readList_writeList transaction.from_data_reader
    transaction.to_data transaction_round_trip_reader n d2 txs r1 htxs
  have h3l := readList_length transaction.from_data_reader n d2 txs r1 htxs
  simp only [block.to_data, h3l, List.append_assoc, h3, h2, h1]

/-! ## Claim theorems -/

/-- C1: for every valid raw script or block byte string (one the reader
deserializes completely) and every value of the size-prefix flag,
`from_data` followed by `to_data` with the same prefix flag reproduces the
original bytes exactly. -/
theorem C1_round_trip :
    (∀ (d : List Nat) (pfx : Bool) (s : script),
      script.from_data_reader pfx d = some (s, []) →
      script.to_data s pfx = d) ∧
    (∀ (d : List Nat) (b : block),
      block.from_data_reader d = some (b, []) → block.to_data b = d) := by
  constructor
  · intro d pfx s h
    have hrt := script_round_trip_reader pfx d s [] h
    simpa using hrt
  · intro d b h
    have hrt := block_round_trip_reader d b [] h
    simpa using hrt

set_option maxRecDepth 4000 in
/-- C1 witness: the concrete two-byte script and the concrete one-coinbase
block round-trip through deserialization and serialization. -/
theorem C1_round_trip_witness :
    script.to_data scriptW true = [2, 171, 205] ∧
    block.to_data blockW = blockBytesW :=
  ⟨C1_round_trip.1 [2, 171, 205] true scriptW (by decide),
   C1_round_trip.2 blockBytesW blockW (by decide)⟩

/-- C2: `script::is_enabled(active_forks, fork)` — the one function body
shipped in the repository, `(fork & active_forks) != 0` — returns true for
a single-bit fork value `2 ^ i` exactly when bit `i` is set in the
caller-supplied bitmask; it reads nothing but its two arguments. -/
theorem C2_is_enabled_bit_test (active_forks i : Nat) :
    script.is_enabled active_forks (2 ^ i) = active_forks.testBit i := by
  have hl : Nat.land (2 ^ i) active_forks = 2 ^ i &&& active_forks := rfl
  simp only [script.is_enabled, hl, Nat.two_pow_and]
  cases ht : active_forks.testBit i with
  | false => simp
  | true =>
      simp only [Bool.toNat_true, Nat.mul_one, bne_iff_ne, ne_eq]
      simp [(Nat.two_pow_pos i).ne']

/-- C3: whenever script deserialization fails, `from_data` returns (it is a
total function) and leaves the script invalid; failure is never signalled
by an exception. -/
theorem C3_from_data_failure_invalid (d : List Nat) (pfx : Bool)
    (h : script.from_data_reader pfx d = none) :
    script.is_valid (script.from_data d pfx) = false := by
  simp [script.from_data, h, script.is_valid, script.reset]

/-- C3 witness: the empty byte string fails prefixed deserialization and
the resulting script is invalid. -/
theorem C3_from_data_failure_invalid_witness :
    script.is_valid (script.from_data [] true) = false :=
  C3_from_data_failure_invalid [] true (by decide)

/-- C4: `block::is_valid()` holds exactly when the header is structurally
valid and the transaction list is non-empty, and the default-constructed
block is not valid. -/
theorem C4_block_is_valid_iff :
    (∀ b : block, block.is_valid b = true ↔
      (header.is_valid b.header_ = true ∧ b.transactions_ ≠ [])) ∧
    block.is_valid block.default_block = false := by
  constructor
  · intro b
    simp [block.is_valid]
  · decide

/-- C5: `block::check()` is purely structural — a function of the block
contents alone — and a block whose transaction list holds two coinbase-like
transactions fails with the extra-coinbases condition even when both
transactions are individually well-formed and every earlier structural
test (header sanity, non-emptiness, size) passes. -/
theorem C5_check_extra_coinbases (b : block) (t1 t2 : transaction)
    (htx : b.transactions_ = [t1, t2])
    (hc1 : transaction.is_coinbase t1 = true)
    (hc2 : transaction.is_coinbase t2 = true)
    (_hw1 : transaction.well_formed t1 = true)
    (_hw2 : transaction.well_formed t2 = true)
    (hh : header.is_valid b.header_ = true)
    (hsize : block.serialized_size b ≤ block.max_block_size) :
    block.check b = code.extra_coinbases := by
  have hempty : b.transactions_.isEmpty = false := by
    rw [htx]; rfl
  have hextra : block.is_extra_coinbases b = true := by
    simp [block.is_extra_coinbases, htx, List.countP_cons, hc1, hc2]
  have hs : ¬ (block.max_block_size < block.serialized_size b) :=
    Nat.not_lt.mpr hsize
  simp [block.check, hh, hempty, hs, hextra]

set_option maxRecDepth 4000 in
/-- C5 witness: the concrete block holding the same well-formed coinbase
transaction twice fails `check` with the extra-coinbases code. -/
theorem C5_check_extra_coinbases_witness :
    block.check blockCW = code.extra_coinbases :=
  C5_check_extra_coinbases blockCW coinbaseW coinbaseW rfl (by decide)
    (by decide) (by decide) (by decide) (by decide) (by decide)

/-- C7: `subsidy(0)` is the genesis-era base reward; at every halving
boundary the subsidy is the previous interval's subsidy halved (integer
division); and for every sufficiently large height the subsidy is exactly
zero — it never goes negative (the model is ℕ-valued). -/
theorem C7_subsidy_schedule :
    block.subsidy 0 = block.initial_block_subsidy_satoshi ∧
    (∀ k : Nat, 1 ≤ k →
      block.subsidy (k * block.subsidy_interval) =
        block.subsidy ((k - 1) * block.subsidy_interval) / 2) ∧
    (∀ h : Nat, 33 * block.subsidy_interval ≤ h → block.subsidy h = 0) := by
  refine ⟨by decide, ?_, ?_⟩
  · intro k hk
    have hI : 0 < block.subsidy_interval := by decide
    simp only [block.subsidy, Nat.mul_div_cancel _ hI,
      Nat.shiftRight_eq_div_pow]
    have hk' : k = (k - 1) + 1 := by omega
    rw [hk', Nat.pow_succ, ← Nat.div_div_eq_div_mul]
    simp
  · intro h hh
    have hI : 0 < block.subsidy_interval := by decide
    have hdiv : 33 ≤ h / block.subsidy_interval :=
      (Nat.le_div_iff_mul_le hI).mpr (by omega)
    simp only [block.subsidy, Nat.shiftRight_eq_div_pow]
    apply Nat.div_eq_of_lt
    calc block.initial_block_subsidy_satoshi < 2 ^ 33 := by decide
      _ ≤ 2 ^ (h / block.subsidy_interval) :=
        Nat.pow_le_pow_right (by decide) hdiv

/-- C7 witness: the tenth halving boundary (where the previous interval's
subsidy is odd) halves with integer truncation, and thirty-three intervals
in the subsidy is exactly zero. -/
theorem C7_subsidy_schedule_witness :
    block.subsidy (10 * block.subsidy_interval) =
      block.subsidy (9 * block.subsidy_interval) / 2 ∧
    block.subsidy (34 * block.subsidy_interval) = 0 :=
  ⟨C7_subsidy_schedule.2.1 10 (by decide),
   C7_subsidy_schedule.2.2 (34 * block.subsidy_interval) (by decide)⟩

/-- Once the cache holds a value, every further call returns it with no
further computation and no state change. -/
theorem total_inputs_calls_cached (v : Nat) :
    ∀ (n : Nat) (b : block), b.total_inputs_ = some v →
      block.total_inputs_calls n b = (List.replicate n v, 0, b) := by
  intro n
  induction n with
  | zero =>
      intro b hb
      simp [block.total_inputs_calls]
  | succ n ih =>
      intro b hb
      simp [block.total_inputs_calls, block.total_inputs_call, hb, ih b hb,
        List.replicate_succ]

/-- C8: N ≥ 2 successive `total_inputs()` calls on the same unmutated block
all return the first call's value while running the underlying computation
at most once; `reset()` empties the cache, and the other mutation path
(`set_header`) leaves it untouched. -/
theorem C8_total_inputs_cache :
    (∀ (b : block) (N : Nat), 2 ≤ N →
      (block.total_inputs_calls N b).1 =
        List.replicate N (block.total_inputs_call b).1 ∧
      (block.total_inputs_calls N b).2.1 ≤ 1) ∧
    (∀ b : block, (block.reset b).total_inputs_ = none) ∧
    (∀ (b : block) (h : header),
      (block.set_header b h).total_inputs_ = b.total_inputs_) := by
  refine ⟨?_, fun b => rfl, fun b h => rfl⟩
  intro b N hN
  obtain ⟨n, rfl⟩ : ∃ n, N = n + 1 := ⟨N - 1, by omega⟩
  cases hcache : b.total_inputs_ with
  | some v =>
      rw [total_inputs_calls_cached v (n + 1) b hcache]
      constructor
      · simp [block.total_inputs_call, hcache]
      · simp
  | none =>
      have hcall : block.total_inputs_call b =
          (block.compute_total_inputs b, true,
            { b with total_inputs_ := some (block.compute_total_inputs b) }) := by
        simp [block.total_inputs_call, hcache]
      have hcached : ({ b with
          total_inputs_ := some (block.compute_total_inputs b) } :
            block).total_inputs_ = some (block.compute_total_inputs b) := rfl
      constructor
      · simp [block.total_inputs_calls, hcall,
          total_inputs_calls_cached _ n _ hcached, List.replicate_succ]
      · simp [block.total_inputs_calls, hcall,
          total_inputs_calls_cached _ n _ hcached]

/-- C8 witness: two calls on the concrete single-coinbase block return the
same value twice with at most one computation. -/
theorem C8_total_inputs_cache_witness :
    (block.total_inputs_calls 2 blockW).1 =
      List.replicate 2 (block.total_inputs_call blockW).1 ∧
    (block.total_inputs_calls 2 blockW).2.1 ≤ 1 :=
  C8_total_inputs_cache.1 blockW 2 (by decide)

set_option maxRecDepth 4000 in
/-- C6: `locator_heights(1000)` is the strictly decreasing sequence from
height 1000 down to height 0 with doubling gaps (1, 2, 4, 8, …) and a final
clamped jump to genesis, hence without duplicate heights; being a plain
function of `top`, it depends on nothing else. -/
theorem C6_locator_heights_1000 :
    block.locator_heights 1000 =
      [1000, 999, 997, 993, 985, 969, 937, 873, 745, 489, 0] ∧
    List.Chain' (fun a b => b < a) (block.locator_heights 1000) ∧
    (block.locator_heights 1000).head? = some 1000 ∧
    (block.locator_heights 1000).getLast? = some 0 ∧
    (block.locator_heights 1000).Nodup ∧
    List.zipWith (fun a b => a - b) (block.locator_heights 1000)
      (block.locator_heights 1000).tail =
      [1, 2, 4, 8, 16, 32, 64, 128, 256, 489] ∧
    List.Chain' (fun g1 g2 => g2 = 2 * g1)
      ((List.zipWith (fun a b => a - b) (block.locator_heights 1000)
        (block.locator_heights 1000).tail).take 9) := by
  have h : block.locator_heights 1000 =
      [1000, 999, 997, 993, 985, 969, 937, 873, 745, 489, 0] := by decide
  have hz : List.zipWith (fun a b => a - b) (block.locator_heights 1000)
      (block.locator_heights 1000).tail =
      [1, 2, 4, 8, 16, 32, 64, 128, 256, 489] := by
    rw [h]; decide
  refine ⟨h, ?_, ?_, ?_, ?_, hz, ?_⟩
  · rw [h]; norm_num [List.chain'_cons]
  · rw [h]; decide
  · rw [h]; decide
  · rw [h]; decide
  · rw [hz]
    have ht : List.take 9 [1, 2, 4, 8, 16, 32, 64, 128, 256, 489] =
        [1, 2, 4, 8, 16, 32, 64, 128, 256] := by decide
    rw [ht]
    norm_num [List.chain'_cons]

/-- On a cache-coherent script the operations accessor agrees with the
deterministic parse of the raw bytes, whatever the cache state. -/
theorem script.operations_coherent (s : script) (h : script.coherent s) :
    script.operations s = parseOps s.bytes_ := by
  unfold script.operations
  cases hc : s.cached_ with
  | false => simp
  | true => simp [h hc]

/-- Script serialization depends only on the raw bytes. -/
theorem script.to_data_congr (s1 s2 : script) (pfx : Bool)
    (h : s1.bytes_ = s2.bytes_) :
    script.to_data s1 pfx = script.to_data s2 pfx := by
  simp [script.to_data, h]

/-- Input serialization after script substitution depends only on the
substituted script's bytes. -/
theorem input_to_data_subst (i : input) (sc1 sc2 : script)
    (h : sc1.bytes_ = sc2.bytes_) :
    input.to_data { i with script := sc1 } =
      input.to_data { i with script := sc2 } := by
  simp only [input.to_data]
  rw [script.to_data_congr sc1 sc2 true h]

/-- The signature-hash input substitution serializes identically for two
script codes with equal bytes, and always preserves length. -/
theorem sighash_inputs_congr (sc1 sc2 : script) (h : sc1.bytes_ = sc2.bytes_)
    (base idx : Nat) :
    ∀ (j : Nat) (l : List input),
      (sighash_inputs sc1 base idx j l).map input.to_data =
        (sighash_inputs sc2 base idx j l).map input.to_data ∧
      (sighash_inputs sc1 base idx j l).length = l.length ∧
      (sighash_inputs sc2 base idx j l).length = l.length := by
  intro j l
  induction l generalizing j with
  | nil => simp [sighash_inputs]
  | cons i rest ih =>
      obtain ⟨ihm, ihl1, ihl2⟩ := ih (j + 1)
      simp only [sighash_inputs, List.map_cons, List.length_cons]
      refine ⟨?_, by simp [ihl1], by simp [ihl2]⟩
      by_cases hj : j = idx
      · rw [if_pos hj, if_pos hj, ihm, input_to_data_subst i sc1 sc2 h]
      · rw [if_neg hj, if_neg hj, ihm]

/-- C9: pattern classification and sigop counting are pure structural
functions of the script's bytes — two coherent script states with equal
bytes classify and count identically, independent of cache state, repeated
calls, or any chain state — and signature-hash generation is a pure
function of the transaction, input index, script-code bytes and sighash
type. -/
theorem C9_pure_functions :
    (∀ s1 s2 : script, script.coherent s1 → script.coherent s2 →
      s1.bytes_ = s2.bytes_ → script.pattern s1 = script.pattern s2) ∧
    (∀ (s1 s2 : script) (embedded : Bool), script.coherent s1 →
      script.coherent s2 → s1.bytes_ = s2.bytes_ →
      script.sigops s1 embedded = script.sigops s2 embedded) ∧
    (∀ (tx : transaction) (input_index sighash_type : Nat)
      (sc1 sc2 : script), sc1.bytes_ = sc2.bytes_ →
      script.generate_signature_hash tx input_index sc1 sighash_type =
        script.generate_signature_hash tx input_index sc2 sighash_type) := by
  refine ⟨?_, ?_, ?_⟩
  · intro s1 s2 h1 h2 hb
    simp only [script.pattern, script.operations_coherent s1 h1,
      script.operations_coherent s2 h2, hb]
  · intro s1 s2 embedded h1 h2 hb
    simp only [script.sigops, script.operations_coherent s1 h1,
      script.operations_coherent s2 h2, hb]
  · intro tx idx sh sc1 sc2 hb
    simp only [script.generate_signature_hash]
    cases hi : tx.inputs[idx]? with
    | none => rfl
    | some self =>
        simp only []
        obtain ⟨hm, hl1, hl2⟩ :=
          sighash_inputs_congr sc1 sc2 hb (sh % 32) idx 0 tx.inputs
        by_cases ha : (128 ≤ sh % 256)
        · simp only [decide_eq_true ha, if_true]
          have hone := input_to_data_subst self sc1 sc2 hb
          simp [transaction.to_data, writeList, hone]
        · simp only [decide_eq_false ha, if_false]
          simp [transaction.to_data, writeList, hm, hl1, hl2]

/-- C9 witness: the uncached and coherently cached states of the same
one-opcode script classify and count identically, and the signature hash of
the concrete coinbase transaction agrees across the two script-code
states. -/
theorem C9_pure_functions_witness :
    script.pattern s1W = script.pattern s2W ∧
    script.sigops s1W true = script.sigops s2W true ∧
    script.generate_signature_hash coinbaseW 0 s1W 1 =
      script.generate_signature_hash coinbaseW 0 s2W 1 :=
  ⟨C9_pure_functions.1 s1W s2W (fun h => nomatch h) (fun _ => rfl) rfl,
   C9_pure_functions.2.1 s1W s2W true (fun h => nomatch h) (fun _ => rfl) rfl,
   C9_pure_functions.2.2 coinbaseW 0 1 s1W s2W rfl⟩

/-- From height zero the locator is the genesis entry alone, whatever the
fuel and step. -/
theorem locator_aux_height_zero (fuel s : Nat) :
    block.locator_aux fuel 0 s = [0] := by
  cases fuel <;> simp [block.locator_aux]

/-- Length of the locator descent from a positive height with step `2 ^ j`:
one entry per doubling gap that fits, the start, and the genesis entry. -/
theorem locator_aux_length :
    ∀ h : Nat, 1 ≤ h → ∀ (j fuel : Nat), h ≤ fuel →
      (block.locator_aux fuel h (2 ^ j)).length =
        Nat.log2 ((h - 1) / 2 ^ j + 1) + 2 := by
  intro h
  induction h using Nat.strong_induction_on with
  | _ h ih =>
    intro h1 j fuel hfuel
    obtain ⟨f, rfl⟩ : ∃ f, fuel = f + 1 := ⟨fuel - 1, by omega⟩
    have hppos : 0 < 2 ^ j := Nat.two_pow_pos j
    simp only [block.locator_aux]
    rw [if_neg (by omega)]
    simp only [List.length_cons]
    by_cases hle : h ≤ 2 ^ j
    · have hz : h - 2 ^ j = 0 := by omega
      rw [hz, locator_aux_height_zero]
      have hd : (h - 1) / 2 ^ j = 0 := Nat.div_eq_of_lt (by omega)
      rw [hd]
      have hlog : Nat.log2 1 = 0 := by
        rw [Nat.log2]
        norm_num
      simp [hlog]
    · push_neg at hle
      have hm1 : 1 ≤ (h - 1) / 2 ^ j :=
        (Nat.one_le_div_iff hppos).mpr (by omega)
      obtain ⟨m', hm'⟩ : ∃ m', (h - 1) / 2 ^ j = m' + 1 :=
        ⟨(h - 1) / 2 ^ j - 1, by omega⟩
      have hdm := Nat.div_add_mod (h - 1) (2 ^ j)
      have htlt : (h - 1) % 2 ^ j < 2 ^ j := Nat.mod_lt _ hppos
      rw [hm'] at hdm
      have hexp : 2 ^ j * (m' + 1) = 2 ^ j * m' + 2 ^ j := by ring
      have hsplit : h - 2 ^ j - 1 = 2 ^ j * m' + (h - 1) % 2 ^ j := by omega
      have hrec : 1 ≤ h - 2 ^ j := by omega
      have hlt : h - 2 ^ j < h := by omega
      have hfuel' : h - 2 ^ j ≤ f := by omega
      have h2 : 2 * 2 ^ j = 2 ^ (j + 1) := by rw [Nat.pow_succ]; ring
      rw [h2, ih (h - 2 ^ j) hlt hrec (j + 1) f hfuel']
      have hq := Nat.div_add_mod m' 2
      have hur : m' = 2 * (m' / 2) + m' % 2 := by omega
      have hrlt : m' % 2 < 2 := Nat.mod_lt _ (by omega)
      have hnum : 2 ^ j * m' + (h - 1) % 2 ^ j =
          2 ^ j * 2 * (m' / 2) + (2 ^ j * (m' % 2) + (h - 1) % 2 ^ j) := by
        conv_lhs => rw [hur]
        ring
      have hlow : 2 ^ j * (m' % 2) + (h - 1) % 2 ^ j < 2 ^ j * 2 := by
        have hmul : 2 ^ j * (m' % 2) ≤ 2 ^ j * 1 :=
          Nat.mul_le_mul_left _ (by omega)
        omega
      have hdiv2 :
          (2 ^ j * m' + (h - 1) % 2 ^ j) / 2 ^ (j + 1) = m' / 2 := by
        rw [hnum, Nat.pow_succ, Nat.mul_add_div (by positivity),
          Nat.div_eq_of_lt hlow]
        omega
      rw [hsplit, hdiv2]
      have hC : Nat.log2 (m' + 2) = Nat.log2 ((m' + 2) / 2) + 1 := by
        conv_lhs => rw [Nat.log2]
        rw [if_pos (by omega)]
      have hhalf : (m' + 2) / 2 = m' / 2 + 1 := by omega
      rw [hm', show m' + 1 + 1 = m' + 2 by omega, hC, hhalf]

/-- C10: for every `top`, `locator_size(top)` — the closed-form element
count — equals the length of the sequence `locator_heights(top)` returns. -/
theorem C10_locator_size_length (top : Nat) :
    (block.locator_heights top).length = block.locator_size top := by
  by_cases h0 : top = 0
  · subst h0
    decide
  · have h1 : 1 ≤ top := by omega
    have hlen := locator_aux_length top h1 0 (top + 1) (by omega)
    simp only [pow_zero, Nat.div_one] at hlen
    unfold block.locator_heights block.locator_size
    rw [if_neg h0]
    rw [show top - 1 + 1 = top by omega] at hlen
    exact hlen

end NiuBlock
